import Mathlib

/-!
# Verification of `macro/ci/comparator.C`

A shallow embedding of the ROOT script `comparator.C`: the selection of the
histogram list from the output file name, the plot-grid settings, the loop that
loads the graphs of the input files and checks their binning, the 3D array of
`Histos` pointers, and the two operators `fillHistosArr` and `drawHistosArr`
that the script stages on the post-processor.

Effects of the script (messages, calls into the analysis library) are recorded
as a list of `Event`s, in program order.
-/

namespace Comparator

/-! ## Data model -/

/-- ROOT's `TString`. -/
abbrev TString := String

/-- The `TString::Contains(pat)` test (exact case): `pat` occurs in `s` as a
contiguous run of characters. -/
def Contains (s pat : TString) : Bool :=
  s.data.tails.any (fun t => pat.data.isPrefixOf t)

/-- A `Double_t`, carried as its 64-bit pattern. The script only copies these
values (bin-set minimum and maximum) from a bin set to the renderer; it never
computes on them. -/
structure Double_t where
  bits : Nat
deriving DecidableEq, Repr

/-- The identity of a `Histos` object. -/
abbrev Histos := Nat

/-- A `Histos*`; `none` is the null pointer. -/
abbrev HistosPtr := Option Histos

/-- The part of a `BinSet` the script can see: `GetNumBins()` (the number of
entries of the bin list, a container size, hence a natural number),
`GetMin()`, `GetMax()`, and the bin boundaries, which the script never reads. -/
structure BinSet where
  numBins : Nat
  min : Double_t
  max : Double_t
  boundaries : List Double_t
deriving DecidableEq, Repr

/-- A `NodePath`, as the operators use it: `GetBinNum v` stands for
`NP->GetBinNode(v)->GetBinNum()` (an `Int_t`), `BinListName` for
`NP->BinListName()`. -/
structure NodePath where
  GetBinNum : TString → Int
  BinListName : TString

/-- The C++ exception the payload operator handles. -/
inductive StdException where
  | out_of_range
deriving DecidableEq, Repr

/-- Modelled from the spec: a subgroup of a graph as the traversal driver
(`PostProcessor::Execute` over `P0->Op()`, not part of the script) presents
it. A subgroup is the set of leaves sharing a fixed value along the outer
grid dimension while the inner dimension sweeps its range; `NP` is the node
path handed to the after-subloop operator, and each leaf carries its node path
and its own `Histos*`. -/
structure Subgroup where
  NP : NodePath
  leaves : List (NodePath × HistosPtr)

/-- A loaded `HistosDAG`: `GetBinSet v` is `D->GetBinSet(v)`;
`GetPayloadData NP silence` is `D->GetPayloadData(NP,silence)`, which either
returns a `Histos*` or fails with `std::out_of_range`. The graph is the nesting
of its bin sets, one node per bin: `leaf outer x inner y` is its leaf at bin
`x` of the variable `outer` and bin `y` of the variable `inner` (the node path
and the leaf's own `Histos*`), and `subloopPath outer x inner` is the node path
the graph hands to an after-subloop operator when the sweep of `inner` under
bin `x` of `outer` is complete. -/
structure HistosDAG where
  GetBinSet : TString → BinSet
  GetPayloadData : NodePath → Bool → Except StdException HistosPtr
  leaf : TString → Nat → TString → Nat → NodePath × HistosPtr
  subloopPath : TString → Nat → TString → NodePath

/-- An opened `TFile`: its name (`GetName()`) and the graph that
`HistosDAG::BuildFromFile` reads from it. -/
structure TFile where
  name : TString
  dag : HistosDAG

/-- The 3D array `std::vector<std::vector<std::vector<Histos*>>>`: a list (one
entry per file) of 2D arrays of `Histos` pointers. -/
abbrev Store := List (List (List HistosPtr))

/-- The arguments of one call of `PostProcessor::DrawInBins`, in call order;
`opt1`, `opt2`, `opt3` are the three trailing booleans. -/
structure DrawCall where
  canvName : TString
  histArrList : Store
  histName : TString
  gxT : TString
  numXbins : Nat
  xMin : Double_t
  xMax : Double_t
  logx : Bool
  gyT : TString
  numYbins : Nat
  yMin : Double_t
  yMax : Double_t
  logy : Bool
  opt1 : Bool
  opt2 : Bool
  opt3 : Bool

/-- The observable effects of the script, in program order. `leafVisit` and
`subloopDone` mark the two kinds of operator invocations made by the traversal
driver. -/
inductive Event where
  | stderr (msg : TString)
  | invalidBin (pc bx by_ : Int)
  | printBin (bx by_ : Int)
  | newTFile (name : TString)
  | BuildFromFile (name : TString)
  | newPostProcessor (infile outfile : TString)
  | legendLabel (title : TString)
  | allocate (numFiles numXbins numYbins : Nat)
  | AfterSubloop (layers : List TString)
  | Payload
  | Execute
  | leafVisit (NP : NodePath) (H : HistosPtr)
  | subloopDone (NP : NodePath)
  | DrawInBins (c : DrawCall)
  | Finish

/-! ## Histogram list and plot-grid settings -/

/-- The histogram list, set from the output file name (lines 19-55); `none`
is the branch that reports an error and returns. -/
def histList (outfile : TString) : Option (List TString) :=
  if Contains outfile "coverage" then
    some ["x", "y", "W", "pLab", "pTlab", "etaLab", "phiLab", "z", "pT", "qT",
      "qTq", "mX", "phiH", "phiS", "phiSivers", "phiCollins"]
  else if Contains outfile "resolution" then
    some ["x_Res", "y_Res", "pT_Res", "Q2_Res", "Nu_Res", "W_Res", "phiH_Res",
      "phiS_Res", "z_Res", "mX_Res", "xF_Res"]
  else
    none

/-- Title and log flag of a plot-grid variable (lines 61-76): the defaults
`(g, false)`, then the four `if` statements in order. -/
def gridSettings (g : TString) : TString × Bool :=
  let s0 : TString × Bool := (g, false)
  let s1 := if g = "x" then ("x", true) else s0
  let s2 := if g = "q2" then ("Q^\x7b2\x7d", true) else s1
  let s3 := if g = "eta" then ("#eta", false) else s2
  let s4 := if g = "p" then ("p", true) else s3
  s4

/-! ## Loading the graphs and checking the binning -/

/-- The `else` branch of the loop over `infiles` (lines 97-119), for the files
after the first: build the graph, append it to `Dext`, compare the two bin
counts with those of the first file, and on a difference report and return.
The result is `(passed, Dext, events)`. -/
def loadRest (gx gy : TString) (numXbins numYbins : Nat) :
    List (TString × TFile) → Bool × List HistosDAG × List Event
  | [] => (true, [], [])
  | (_, infile) :: fs =>
    let D := infile.dag
    if numXbins ≠ (D.GetBinSet gx).numBins ∨ numYbins ≠ (D.GetBinSet gy).numBins then
      (false, [D], [.BuildFromFile infile.name, .stderr "ERROR: files have differing bins\n"])
    else
      let r := loadRest gx gy numXbins numYbins fs
      (r.1, D :: r.2.1, .BuildFromFile infile.name :: r.2.2)

/-- The variables the two operators capture by reference, apart from the
array `histosArrList`, which is passed explicitly as the mutable state. -/
structure Captures where
  gx : TString
  gy : TString
  histList : List TString
  gxT : TString
  gyT : TString
  logx : Bool
  logy : Bool
  numXbins : Nat
  numYbins : Nat
  xMin : Double_t
  xMax : Double_t
  yMin : Double_t
  yMax : Double_t
  Dext : List HistosDAG

/-! ## The 3D array -/

/-- The array `histosArrList` as constructed (lines 128-135): `numFiles`
copies of `numXbins` copies of `numYbins` null pointers. -/
def histosArrList (numFiles numXbins numYbins : Nat) : Store :=
  List.replicate numFiles (List.replicate numXbins (List.replicate numYbins none))

/-- The checked access `std::vector::at(i)` with an `Int_t` index. A negative
`Int_t` converts to a `size_type` above every vector size, so it is out of
range like an index at or past the size. -/
def vecAt {α : Type} (v : List α) (i : Int) : Except StdException α :=
  if i < 0 then .error .out_of_range
  else
    match v[i.toNat]? with
    | some a => .ok a
    | none => .error .out_of_range

/-- The assignment `histosArrList.at(pc).at(bx).at(by) = h`: three checked
accesses, then the write of the one cell. -/
def assignAt (s : Store) (pc bx by_ : Int) (h : HistosPtr) : Except StdException Store :=
  match vecAt s pc with
  | .error e => .error e
  | .ok plane =>
    match vecAt plane bx with
    | .error e => .error e
    | .ok row =>
      match vecAt row by_ with
      | .error e => .error e
      | .ok _ => .ok (s.set pc.toNat (plane.set bx.toNat (row.set by_.toNat h)))

/-- The cell `[i][x][y]` of the array, when it exists. -/
def cell (s : Store) (i x y : Nat) : Option HistosPtr :=
  match s[i]? with
  | none => none
  | some plane =>
    match plane[x]? with
    | none => none
    | some row => row[y]?

/-! ## Operators -/

/-- The loop `for(auto De : Dext)` inside the `try` block of `fillHistosArr`
(lines 148-150). The right operand of the assignment is evaluated first, so a
failed lookup leaves `pc` as it was; then `++pc` and the checked write. The
result is `(array, pc, thrown)`; the loop stops at the first exception. -/
def fillLoop (NP : NodePath) (bx by_ : Int) :
    List HistosDAG → Int → Store → Store × Int × Bool
  | [], pc, s => (s, pc, false)
  | De :: rest, pc, s =>
    match De.GetPayloadData NP true with
    | .error _ => (s, pc, true)
    | .ok h =>
      match assignAt s (pc + 1) bx by_ h with
      | .error _ => (s, pc + 1, true)
      | .ok s1 => fillLoop NP bx by_ rest (pc + 1) s1

/-- The payload operator `fillHistosArr` (lines 141-155): find the plot-grid
bin, print it, insert `H` for the first file and the payload of each graph of
`Dext`; a `std::out_of_range` from any step is caught and reported. The result
is the array after the call and the events of the call. -/
def fillHistosArr (c : Captures) (histosArr : Store) (NP : NodePath) (H : HistosPtr) :
    Store × List Event :=
  let bx := NP.GetBinNum c.gx
  let by_ := NP.GetBinNum c.gy
  match assignAt histosArr 0 bx by_ H with
  | .error _ => (histosArr, [.printBin bx by_, .invalidBin 0 bx by_])
  | .ok s0 =>
    let r := fillLoop NP bx by_ c.Dext 0 s0
    (r.1, .printBin bx by_ :: (if r.2.2 then [.invalidBin r.2.1 bx by_] else []))

/-- The calls of `DrawInBins` made by one invocation of the after-subloop
operator `drawHistosArr` (lines 158-168), in order. -/
def drawCalls (c : Captures) (histosArr : Store) (NP : NodePath) : List DrawCall :=
  let canvName := c.gx ++ "_" ++ c.gy ++ "_cov_" ++ NP.BinListName
  c.histList.map (fun histName =>
    { canvName := canvName, histArrList := histosArr, histName := histName,
      gxT := c.gxT, numXbins := c.numXbins, xMin := c.xMin, xMax := c.xMax, logx := c.logx,
      gyT := c.gyT, numYbins := c.numYbins, yMin := c.yMin, yMax := c.yMax, logy := c.logy,
      opt1 := true, opt2 := true, opt3 := true })

/-- The after-subloop operator `drawHistosArr`, as events. -/
def drawHistosArr (c : Captures) (histosArr : Store) (NP : NodePath) : List Event :=
  (drawCalls c histosArr NP).map Event.DrawInBins

/-! ## Traversal -/

/-- Modelled from the spec: the leaf visits of one subgroup, part of the
traversal driver `PostProcessor::Execute`, which is not in the script. Each
leaf is visited in order and the payload operator runs inline before the
traversal advances. -/
def visitLeaves (onLeaf : Store → NodePath → HistosPtr → Store × List Event) :
    List (NodePath × HistosPtr) → Store → Store × List Event
  | [], s => (s, [])
  | (NP, H) :: ls, s =>
    let r := onLeaf s NP H
    let r2 := visitLeaves onLeaf ls r.1
    (r2.1, Event.leafVisit NP H :: (r.2 ++ r2.2))

/-- Modelled from the spec: the walk of the traversal driver over a list of
subgroups, part of `PostProcessor::Execute`, which is not in the script. The
subgroups are taken in order; the leaf operator of every leaf of a subgroup
completes before that subgroup's completion operator fires. -/
def traverse (onLeaf : Store → NodePath → HistosPtr → Store × List Event)
    (onDone : Store → NodePath → List Event) :
    List Subgroup → Store → Store × List Event
  | [], s => (s, [])
  | g :: gs, s =>
    let r := visitLeaves onLeaf g.leaves s
    let d := onDone r.1 g.NP
    let r2 := traverse onLeaf onDone gs r.1
    (r2.1, r.2 ++ (Event.subloopDone g.NP :: (d ++ r2.2)))

/-- Modelled from the spec: the subgroups of a graph for the pair of grid
variables `{outer, inner}` given to `AfterSubloop`, in the graph's nesting
order (outer to inner). Bin indices are 0-based and dense below the count of
the variable's bin set, so there is one subgroup per bin of `outer` and, in
each, one leaf per bin of `inner`. -/
def subgroupsOf (dag : HistosDAG) (outer inner : TString) : List Subgroup :=
  (List.range (dag.GetBinSet outer).numBins).map (fun x =>
    { NP := dag.subloopPath outer x inner,
      leaves := (List.range (dag.GetBinSet inner).numBins).map
        (fun y => dag.leaf outer x inner y) })

/-- Modelled from the spec: the traversal driver `PostProcessor::Execute`,
which is not in the script, for the graph `dag` and the pair of grid variables
registered with `AfterSubloop`. Every leaf of the graph is visited once, in
the graph's nesting order, and the completion operator fires whenever one
sweep of the inner variable is finished. -/
def Execute (onLeaf : Store → NodePath → HistosPtr → Store × List Event)
    (onDone : Store → NodePath → List Event) (dag : HistosDAG) (outer inner : TString)
    (s : Store) : Store × List Event :=
  traverse onLeaf onDone (subgroupsOf dag outer inner) s

/-! ## The script -/

/-- The outcome of a run: the events in order and the array `histosArrList`
at the end, `none` when the run returned before constructing it. -/
structure Run where
  log : List Event
  store : Option Store

/-- The variables captured by the operators, as the script sets them from the
first file (lines 61-76 and 102-110) and from the loop (`Dext`). -/
def captures (first : TFile) (hl : List TString) (gx gy : TString)
    (Dext : List HistosDAG) : Captures :=
  { gx := gx, gy := gy, histList := hl,
    gxT := (gridSettings gx).1, gyT := (gridSettings gy).1,
    logx := (gridSettings gx).2, logy := (gridSettings gy).2,
    numXbins := (first.dag.GetBinSet gx).numBins,
    numYbins := (first.dag.GetBinSet gy).numBins,
    xMin := (first.dag.GetBinSet gx).min, xMax := (first.dag.GetBinSet gx).max,
    yMin := (first.dag.GetBinSet gy).min, yMax := (first.dag.GetBinSet gy).max,
    Dext := Dext }

/-- The body of `comparator` over the vector `infiles`, whose first entry is
`first` (the file whose graph drives the execution) and whose later entries
are `others`. The post-processor `P0` is built on the first file, so `P0->Op()`
is that file's graph; the execution runs on it with the pair `{gx, gy}` that
the script gives to `AfterSubloop`. -/
def comparatorFrom (first : TString × TFile) (others : List (TString × TFile))
    (outfile gx gy : TString) : Run :=
  match histList outfile with
  | none =>
    { log := [.stderr "ERROR: histList not defined for specified infile name\n"],
      store := none }
  | some hl =>
    let infiles := first :: others
    let opened := infiles.map (fun f => Event.newTFile f.2.name)
    let xBins := first.2.dag.GetBinSet gx
    let yBins := first.2.dag.GetBinSet gy
    let head := [Event.BuildFromFile first.2.name,
      Event.newPostProcessor first.2.name outfile]
    let r := loadRest gx gy xBins.numBins yBins.numBins others
    if r.1 = false then
      { log := opened ++ head ++ r.2.2, store := none }
    else
      let c := captures first.2 hl gx gy r.2.1
      let labels := infiles.map (fun f => Event.legendLabel f.1)
      let numFiles := infiles.length
      let store0 := histosArrList numFiles c.numXbins c.numYbins
      let ex := Execute (fillHistosArr c) (drawHistosArr c) first.2.dag gx gy store0
      { log := opened ++ head ++ r.2.2 ++ labels ++
          [Event.allocate numFiles c.numXbins c.numYbins,
           Event.AfterSubloop [gx, gy], Event.Payload, Event.Execute] ++
          ex.2 ++ [Event.Finish],
        store := some ex.1 }

/-- The script `comparator` with its four title/file pairs. -/
def comparator (title0 : TString) (infile0 : TFile) (title1 : TString) (infile1 : TFile)
    (title2 : TString) (infile2 : TFile) (title3 : TString) (infile3 : TFile)
    (outfile gx gy : TString) : Run :=
  comparatorFrom (title0, infile0) [(title1, infile1), (title2, infile2), (title3, infile3)]
    outfile gx gy


/-! ## Shape of the array and reading of cells -/

/-- The array has `nf` planes of `nx` rows of `ny` cells. -/
def Shaped (s : Store) (nf nx ny : Nat) : Prop :=
  s.length = nf ∧ ∀ p ∈ s, p.length = nx ∧ ∀ r ∈ p, r.length = ny


/-! ## Reading a run -/

/-- Whether an event is an error report on the error stream. -/
def Event.isError : Event → Bool
  | .stderr _ => true
  | .invalidBin _ _ _ => true
  | _ => false

/-- The error reports of a run, in order. -/
def diagnostics (r : Run) : List Event :=
  r.log.filter Event.isError

/-- Whether an event belongs to the part of the script after the binning
check: legend labels, construction of the array, registration of the two
operators, execution (leaf visits, completions, operator output, renderer
calls) and finish. -/
def Event.afterCheck : Event → Bool
  | .legendLabel _ => true
  | .allocate _ _ _ => true
  | .AfterSubloop _ => true
  | .Payload => true
  | .Execute => true
  | .leafVisit _ _ => true
  | .subloopDone _ => true
  | .DrawInBins _ => true
  | .printBin _ _ => true
  | .invalidBin _ _ _ => true
  | .Finish => true
  | _ => false

/-- The first divergent source and dimension, in the words of the
specification: the position in load order (counted from `n` on) of the first
file after the reference whose bin count for `gx` or for `gy` differs from the
reference's, together with the variable whose count differs (`gx` when its
count differs, otherwise `gy`). -/
def firstDivergent (gx gy : TString) (first : TFile) :
    List (TString × TFile) → Nat → Option (Nat × TString)
  | [], _ => none
  | (_, f) :: fs, n =>
    if (first.dag.GetBinSet gx).numBins ≠ (f.dag.GetBinSet gx).numBins then some (n, gx)
    else if (first.dag.GetBinSet gy).numBins ≠ (f.dag.GetBinSet gy).numBins then some (n, gy)
    else firstDivergent gx gy first fs (n + 1)

/-! ## Sample inputs

A 2-by-2 grid over the variables `x` and `q2`, and files that agree with it or
differ from it in one respect. -/

/-- The node path of the grid bin `(bx, by)`. -/
def sampleNP (bx by_ : Int) : NodePath :=
  { GetBinNum := fun v => if v = "x" then bx else if v = "q2" then by_ else 0,
    BinListName := "sample" }

/-- The leaf of the grid bin `(bx, by)` of a sample graph whose payloads are
numbered from `base`. -/
def sampleLeaf (base bx by_ : Nat) : NodePath × HistosPtr :=
  (sampleNP bx by_, some (base + 10 * bx + by_))

/-- A sample graph with `nx` bins in `x` and `ny` bins in `q2`, bin-set minima
`lo`, payloads numbered from `base`, and no payload at the grid bin `missing`. -/
def sampleDAG (base nx ny lo : Nat) (missing : Option (Int × Int)) : HistosDAG :=
  { GetBinSet := fun v =>
      if v = "x" then { numBins := nx, min := ⟨lo⟩, max := ⟨lo + 1⟩, boundaries := [⟨lo⟩] }
      else { numBins := ny, min := ⟨lo⟩, max := ⟨lo + 2⟩, boundaries := [⟨lo + 2⟩] },
    GetPayloadData := fun NP _ =>
      if missing = some (NP.GetBinNum "x", NP.GetBinNum "q2") then .error .out_of_range
      else .ok (some (base + 10 * (NP.GetBinNum "x").toNat + (NP.GetBinNum "q2").toNat)),
    leaf := fun _ x _ y => sampleLeaf base x y,
    subloopPath := fun _ x _ => sampleNP x 1 }

/-- The reference file: a full 2-by-2 grid. -/
def fileRef : TFile := { name := "ref.root", dag := sampleDAG 0 2 2 1 none }

/-- A file with the same bin counts as the reference and other bin-set minima,
maxima and boundaries. -/
def fileSame : TFile := { name := "same.root", dag := sampleDAG 100 2 2 5 none }

/-- A file with the same bin counts whose graph has no payload at `(1,1)`. -/
def fileMissing : TFile := { name := "missing.root", dag := sampleDAG 200 2 2 1 (some (1, 1)) }

/-- A file with 3 bins in `x`. -/
def fileX3 : TFile := { name := "x3.root", dag := sampleDAG 300 3 2 1 none }

/-- A file with 3 bins in `q2`. -/
def fileY3 : TFile := { name := "y3.root", dag := sampleDAG 400 2 3 1 none }

/-- The captured variables of a run on the reference file with the additional
graphs `Dext` and a two-name histogram list. -/
def sampleCaptures (Dext : List HistosDAG) : Captures :=
  captures fileRef ["x", "y"] "x" "q2" Dext

/-! ## Lemmas on the array -/

theorem shaped_histosArrList (nf nx ny : Nat) : Shaped (histosArrList nf nx ny) nf nx ny := by
  refine ⟨by simp [histosArrList], ?_⟩
  intro p hp
  simp only [histosArrList, List.mem_replicate] at hp
  rw [hp.2]
  refine ⟨by simp, ?_⟩
  intro r hr
  simp only [List.mem_replicate] at hr
  rw [hr.2]; simp

theorem cell_histosArrList (nf nx ny i x y : Nat) (hi : i < nf) (hx : x < nx) (hy : y < ny) :
    cell (histosArrList nf nx ny) i x y = some none := by
  simp [cell, histosArrList, List.getElem?_replicate, hi, hx, hy]

theorem vecAt_ok {α : Type} (v : List α) (k : Nat) (a : α) (h : v[k]? = some a) :
    vecAt v (k : Int) = .ok a := by
  simp [vecAt, h]

theorem vecAt_neg {α : Type} (v : List α) (i : Int) (h : i < 0) :
    vecAt v i = .error .out_of_range := by
  simp [vecAt, h]

theorem vecAt_ge {α : Type} (v : List α) (i : Int) (h : (v.length : Int) ≤ i) :
    vecAt v i = .error .out_of_range := by
  have h0 : ¬ i < 0 := by omega
  have h1 : v[i.toNat]? = none := by
    apply List.getElem?_eq_none
    omega
  simp [vecAt, h0, h1]

/-- Outside the allocated bounds of a plane the checked write fails and
nothing is written. -/
theorem assignAt_out_of_range (s : Store) (nf nx ny : Nat) (hs : Shaped s nf nx ny)
    (pc bx by_ : Int) (h : HistosPtr)
    (hout : pc < 0 ∨ (nf : Int) ≤ pc ∨ bx < 0 ∨ (nx : Int) ≤ bx ∨ by_ < 0 ∨ (ny : Int) ≤ by_) :
    assignAt s pc bx by_ h = .error .out_of_range := by
  unfold assignAt
  by_cases hpc : pc < 0 ∨ (nf : Int) ≤ pc
  · have : vecAt s pc = .error .out_of_range := by
      rcases hpc with h1 | h1
      · exact vecAt_neg s pc h1
      · exact vecAt_ge s pc (by rw [hs.1]; exact h1)
    simp [this]
  · have hpc0 : 0 ≤ pc := by omega
    have hpc1 : pc.toNat < s.length := by rw [hs.1]; omega
    have e1 : vecAt s pc = .ok s[pc.toNat] := by
      have := vecAt_ok s pc.toNat s[pc.toNat] (by simp [hpc1])
      rwa [Int.toNat_of_nonneg hpc0] at this
    have hmem : s[pc.toNat] ∈ s := List.getElem_mem _
    have hp := hs.2 _ hmem
    simp only [e1]
    by_cases hbx : bx < 0 ∨ (nx : Int) ≤ bx
    · have : vecAt s[pc.toNat] bx = .error .out_of_range := by
        rcases hbx with h1 | h1
        · exact vecAt_neg _ bx h1
        · exact vecAt_ge _ bx (by rw [hp.1]; exact h1)
      simp [this]
    · have hbx0 : 0 ≤ bx := by omega
      have hbx1 : bx.toNat < (s[pc.toNat]).length := by rw [hp.1]; omega
      have e2 : vecAt s[pc.toNat] bx = .ok (s[pc.toNat])[bx.toNat] := by
        have := vecAt_ok s[pc.toNat] bx.toNat (s[pc.toNat])[bx.toNat] (by simp [hbx1])
        rwa [Int.toNat_of_nonneg hbx0] at this
      have hr := hp.2 _ (List.getElem_mem hbx1)
      simp only [e2]
      have hby : by_ < 0 ∨ (ny : Int) ≤ by_ := by omega
      have : vecAt (s[pc.toNat])[bx.toNat] by_ = .error .out_of_range := by
        rcases hby with h1 | h1
        · exact vecAt_neg _ by_ h1
        · exact vecAt_ge _ by_ (by rw [hr]; exact h1)
      simp [this]

/-- Inside the allocated bounds the checked write succeeds, keeps the shape,
and changes the one cell addressed. -/
theorem assignAt_in_range (s : Store) (nf nx ny : Nat) (hs : Shaped s nf nx ny)
    (k : Nat) (bx by_ : Int) (h : HistosPtr) (hk : k < nf)
    (hx0 : 0 ≤ bx) (hx1 : bx < (nx : Int)) (hy0 : 0 ≤ by_) (hy1 : by_ < (ny : Int)) :
    ∃ s1, assignAt s (k : Int) bx by_ h = .ok s1 ∧ Shaped s1 nf nx ny ∧
      ∀ i x y, cell s1 i x y =
        if i = k ∧ x = bx.toNat ∧ y = by_.toNat then some h else cell s i x y := by
  have hk1 : k < s.length := by rw [hs.1]; exact hk
  have e1 : vecAt s (k : Int) = .ok s[k] := vecAt_ok s k s[k] (by simp [hk1])
  have hp := hs.2 _ (List.getElem_mem hk1)
  have hbx1 : bx.toNat < (s[k]).length := by rw [hp.1]; omega
  have e2 : vecAt s[k] bx = .ok (s[k])[bx.toNat] := by
    have := vecAt_ok s[k] bx.toNat (s[k])[bx.toNat] (by simp [hbx1])
    rwa [Int.toNat_of_nonneg hx0] at this
  have hr := hp.2 _ (List.getElem_mem hbx1)
  have hby1 : by_.toNat < ((s[k])[bx.toNat]).length := by rw [hr]; omega
  have e3 : vecAt (s[k])[bx.toNat] by_ = .ok ((s[k])[bx.toNat])[by_.toNat] := by
    have := vecAt_ok (s[k])[bx.toNat] by_.toNat ((s[k])[bx.toNat])[by_.toNat] (by simp [hby1])
    rwa [Int.toNat_of_nonneg hy0] at this
  refine ⟨s.set k ((s[k]).set bx.toNat (((s[k])[bx.toNat]).set by_.toNat h)), ?_, ?_, ?_⟩
  · simp [assignAt, e1, e2, e3]
  · refine ⟨by simp [hs.1], ?_⟩
    intro p hp1
    rcases List.mem_or_eq_of_mem_set hp1 with hp2 | hp2
    · exact hs.2 p hp2
    · subst hp2
      refine ⟨by simp [hp.1], ?_⟩
      intro r hr1
      rcases List.mem_or_eq_of_mem_set hr1 with hr2 | hr2
      · exact hp.2 r hr2
      · subst hr2
        simp [hr]
  · intro i x y
    unfold cell
    by_cases hik : i = k
    · subst hik
      by_cases hxx : x = bx.toNat
      · subst hxx
        by_cases hyy : y = by_.toNat
        · subst hyy
          simp [List.getElem?_set, hk1, hbx1, hby1]
        · have hyy1 : ¬ by_.toNat = y := fun e => hyy e.symm
          simp [List.getElem?_set, hk1, hbx1, hyy, hyy1]
      · have hxx1 : ¬ bx.toNat = x := fun e => hxx e.symm
        simp [List.getElem?_set, hk1, hxx, hxx1]
    · have hik1 : ¬ k = i := fun e => hik e.symm
      simp [List.getElem?_set, hik, hik1]

/-! ## The loop over `Dext` -/

/-- When every lookup of the listed graphs succeeds and the array has a plane
for each of them, the loop runs to its end without an exception, writes each
payload into the plane of its graph at the grid bin, and touches nothing else. -/
theorem fillLoop_all_ok (NP : NodePath) (bx by_ : Int) (nf nx ny : Nat)
    (hx0 : 0 ≤ bx) (hx1 : bx < (nx : Int)) (hy0 : 0 ≤ by_) (hy1 : by_ < (ny : Int)) :
    ∀ (ds : List HistosDAG) (k : Nat) (s : Store), Shaped s nf nx ny →
      k + ds.length < nf →
      (∀ De ∈ ds, ∃ h, De.GetPayloadData NP true = .ok h) →
      ∃ s1, fillLoop NP bx by_ ds (k : Int) s = (s1, ((k + ds.length : Nat) : Int), false) ∧
        Shaped s1 nf nx ny ∧
        (∀ j De h, ds[j]? = some De → De.GetPayloadData NP true = .ok h →
          cell s1 (k + 1 + j) bx.toNat by_.toNat = some h) ∧
        (∀ i x y, (x ≠ bx.toNat ∨ y ≠ by_.toNat ∨ i ≤ k ∨ k + ds.length < i) →
          cell s1 i x y = cell s i x y) := by
  intro ds
  induction ds with
  | nil =>
    intro k s hs _ _
    exact ⟨s, by simp [fillLoop], hs, by simp, fun _ _ _ _ => rfl⟩
  | cons De rest ih =>
    intro k s hs hk hok
    obtain ⟨h, hh⟩ := hok De (List.mem_cons_self _ _)
    have hlen : (De :: rest).length = rest.length + 1 := rfl
    obtain ⟨s0, hs0, hsh0, hc0⟩ :=
      assignAt_in_range s nf nx ny hs (k + 1) bx by_ h (by omega) hx0 hx1 hy0 hy1
    obtain ⟨s1, hs1, hsh1, hw1, hf1⟩ := ih (k + 1) s0 hsh0 (by omega)
      (fun D hD => hok D (List.mem_cons_of_mem _ hD))
    have hcast : ((k : Int) + 1) = ((k + 1 : Nat) : Int) := by push_cast; rfl
    refine ⟨s1, ?_, hsh1, ?_, ?_⟩
    · simp only [fillLoop, hh, hcast, hs0, hs1]
      have : k + 1 + rest.length = k + (De :: rest).length := by rw [hlen]; omega
      rw [this]
    · intro j Dj hj hget hlook
      cases j with
      | zero =>
        simp only [List.getElem?_cons_zero, Option.some.injEq] at hget
        subst hget
        rw [hh] at hlook
        cases hlook
        rw [hf1 (k + 1 + 0) _ _ (Or.inr (Or.inr (Or.inl (by omega)))), hc0]
        simp
      | succ j =>
        simp only [List.getElem?_cons_succ] at hget
        have := hw1 j Dj hj hget hlook
        have e : k + 1 + (j + 1) = k + 1 + 1 + j := by omega
        rw [e]; exact this
    · intro i x y hcond
      have h1 : cell s1 i x y = cell s0 i x y := by
        apply hf1
        rcases hcond with h | h | h | h
        · exact Or.inl h
        · exact Or.inr (Or.inl h)
        · exact Or.inr (Or.inr (Or.inl (by omega)))
        · exact Or.inr (Or.inr (Or.inr (by rw [hlen] at h; omega)))
      rw [h1, hc0]
      have : ¬ (i = k + 1 ∧ x = bx.toNat ∧ y = by_.toNat) := by
        rintro ⟨e1, e2, e3⟩
        rcases hcond with h | h | h | h
        · exact h e2
        · exact h e3
        · omega
        · rw [hlen] at h; omega
      simp [this]

/-- The loop over a concatenation runs the first part and, unless that part
threw, goes on with the second part from the state the first part left. -/
theorem fillLoop_append (NP : NodePath) (bx by_ : Int) :
    ∀ (pre post : List HistosDAG) (pc : Int) (s : Store),
      fillLoop NP bx by_ (pre ++ post) pc s =
        if (fillLoop NP bx by_ pre pc s).2.2 = true then fillLoop NP bx by_ pre pc s
        else fillLoop NP bx by_ post (fillLoop NP bx by_ pre pc s).2.1
          (fillLoop NP bx by_ pre pc s).1 := by
  intro pre
  induction pre with
  | nil => intro post pc s; simp [fillLoop]
  | cons De rest ih =>
    intro post pc s
    simp only [List.cons_append, fillLoop]
    cases hl : De.GetPayloadData NP true with
    | error e => simp
    | ok h =>
      cases ha : assignAt s (pc + 1) bx by_ h with
      | error e => simp [ha]
      | ok s1 => simp only [ha]; exact ih post (pc + 1) s1

/-- A loop whose first write fails (the lookup throws, or the array has no
plane for the graph) stops at once with the array untouched. -/
theorem fillLoop_head_fails (NP : NodePath) (bx by_ : Int) (nf nx ny : Nat)
    (De : HistosDAG) (post : List HistosDAG) (k : Nat) (s : Store) (hs : Shaped s nf nx ny)
    (hfail : De.GetPayloadData NP true = .error .out_of_range ∨ nf ≤ k + 1) :
    ∃ pc, fillLoop NP bx by_ (De :: post) (k : Int) s = (s, pc, true) := by
  cases hl : De.GetPayloadData NP true with
  | error e => exact ⟨(k : Int), by simp [fillLoop, hl]⟩
  | ok h =>
    have hnf : nf ≤ k + 1 := by
      rcases hfail with h1 | h1
      · rw [hl] at h1; cases h1
      · exact h1
    have := assignAt_out_of_range s nf nx ny hs ((k : Int) + 1) bx by_ h
      (Or.inr (Or.inl (by omega)))
    exact ⟨(k : Int) + 1, by simp [fillLoop, hl, this]⟩

/-! ## The payload operator -/

/-- A list splits at a position that holds an element. -/
theorem split_at_index {α : Type} (l : List α) (i : Nat) (a : α) (h : l[i]? = some a) :
    l = l.take i ++ a :: l.drop (i + 1) ∧ (l.take i).length = i := by
  obtain ⟨hi, rfl⟩ := List.getElem?_eq_some.1 h
  refine ⟨?_, ?_⟩
  · rw [← List.drop_eq_getElem_cons hi, List.take_append_drop]
  · rw [List.length_take]; omega

/-- The operator when the lookups of the graphs in `pre` succeed and the write
for the next graph `De` fails: the exception is caught and reported, the
payloads of the first file and of `pre` are in place, and no other cell has
changed. -/
theorem fillHistosArr_stops (c : Captures) (s : Store) (nf nx ny : Nat)
    (hs : Shaped s nf nx ny) (NP : NodePath) (H : HistosPtr)
    (hx0 : 0 ≤ NP.GetBinNum c.gx) (hx1 : NP.GetBinNum c.gx < (nx : Int))
    (hy0 : 0 ≤ NP.GetBinNum c.gy) (hy1 : NP.GetBinNum c.gy < (ny : Int))
    (pre post : List HistosDAG) (De : HistosDAG) (hD : c.Dext = pre ++ De :: post)
    (hpre : ∀ D ∈ pre, ∃ h, D.GetPayloadData NP true = .ok h)
    (hnf : pre.length + 1 ≤ nf)
    (hfail : De.GetPayloadData NP true = .error .out_of_range ∨ nf ≤ pre.length + 1) :
    ∃ s1 pc, fillHistosArr c s NP H =
        (s1, [.printBin (NP.GetBinNum c.gx) (NP.GetBinNum c.gy),
              .invalidBin pc (NP.GetBinNum c.gx) (NP.GetBinNum c.gy)]) ∧
      Shaped s1 nf nx ny ∧
      cell s1 0 (NP.GetBinNum c.gx).toNat (NP.GetBinNum c.gy).toNat = some H ∧
      (∀ j Dj h, pre[j]? = some Dj → Dj.GetPayloadData NP true = .ok h →
        cell s1 (j + 1) (NP.GetBinNum c.gx).toNat (NP.GetBinNum c.gy).toNat = some h) ∧
      (∀ i x y, (x ≠ (NP.GetBinNum c.gx).toNat ∨ y ≠ (NP.GetBinNum c.gy).toNat ∨
          pre.length < i) → cell s1 i x y = cell s i x y) := by
  obtain ⟨s0, hs0, hsh0, hc0⟩ :=
    assignAt_in_range s nf nx ny hs 0 _ _ H (by omega) hx0 hx1 hy0 hy1
  obtain ⟨s1, hs1, hsh1, hw1, hf1⟩ :=
    fillLoop_all_ok NP _ _ nf nx ny hx0 hx1 hy0 hy1 pre 0 s0 hsh0 (by omega) hpre
  obtain ⟨pc, hpc⟩ := fillLoop_head_fails NP (NP.GetBinNum c.gx) (NP.GetBinNum c.gy)
    nf nx ny De post pre.length s1 hsh1 hfail
  simp only [Nat.cast_zero, Nat.zero_add] at hs0 hs1
  have hloop : fillLoop NP (NP.GetBinNum c.gx) (NP.GetBinNum c.gy) c.Dext 0 s0 =
      (s1, pc, true) := by
    rw [hD, fillLoop_append, hs1]
    simpa using hpc
  refine ⟨s1, pc, ?_, hsh1, ?_, ?_, ?_⟩
  · simp [fillHistosArr, hs0, hloop]
  · rw [hf1 0 _ _ (Or.inr (Or.inr (Or.inl (le_refl _)))), hc0]; simp
  · intro j Dj h hj hl
    have := hw1 j Dj h hj hl
    simpa [Nat.add_comm] using this
  · intro i x y hcond
    have h1 : cell s1 i x y = cell s0 i x y := by
      apply hf1
      rcases hcond with h | h | h
      · exact Or.inl h
      · exact Or.inr (Or.inl h)
      · exact Or.inr (Or.inr (Or.inr (by omega)))
    rw [h1, hc0]
    have : ¬ (i = 0 ∧ x = (NP.GetBinNum c.gx).toNat ∧ y = (NP.GetBinNum c.gy).toNat) := by
      rintro ⟨e1, e2, e3⟩
      rcases hcond with h | h | h
      · exact h e2
      · exact h e3
      · omega
    simp [this]

/-! ## The loading loop -/

/-- The loop passes exactly when every later file has the two bin counts of
the first file. -/
theorem loadRest_pass_iff (gx gy : TString) (nX nY : Nat) (fs : List (TString × TFile)) :
    (loadRest gx gy nX nY fs).1 = true ↔
      ∀ f ∈ fs, nX = (f.2.dag.GetBinSet gx).numBins ∧ nY = (f.2.dag.GetBinSet gy).numBins := by
  induction fs with
  | nil => simp [loadRest]
  | cons f fs ih =>
    obtain ⟨t, infile⟩ := f
    by_cases hne : nX ≠ (infile.dag.GetBinSet gx).numBins ∨
        nY ≠ (infile.dag.GetBinSet gy).numBins
    · have hnot : ¬ (nX = (infile.dag.GetBinSet gx).numBins ∧
          nY = (infile.dag.GetBinSet gy).numBins) := by
        rintro ⟨h1, h2⟩
        rcases hne with h | h
        · exact h h1
        · exact h h2
      simp only [loadRest, if_pos hne, List.mem_cons, forall_eq_or_imp]
      constructor
      · intro h; cases h
      · intro h; exact absurd h.1 hnot
    · have heq : nX = (infile.dag.GetBinSet gx).numBins ∧
          nY = (infile.dag.GetBinSet gy).numBins := by
        constructor
        · by_contra h; exact hne (Or.inl h)
        · by_contra h; exact hne (Or.inr h)
      simp only [loadRest, if_neg hne, List.mem_cons, forall_eq_or_imp]
      rw [ih]
      constructor
      · intro h; exact ⟨heq, h⟩
      · intro h; exact h.2

/-- A failing loop logs the graphs it built and, last, the one fixed message. -/
theorem loadRest_fail_log (gx gy : TString) (nX nY : Nat) (fs : List (TString × TFile))
    (h : (loadRest gx gy nX nY fs).1 = false) :
    ∃ names : List TString, (loadRest gx gy nX nY fs).2.2 =
      names.map Event.BuildFromFile ++ [Event.stderr "ERROR: files have differing bins\n"] := by
  induction fs with
  | nil => simp [loadRest] at h
  | cons f fs ih =>
    obtain ⟨t, infile⟩ := f
    by_cases hne : nX ≠ (infile.dag.GetBinSet gx).numBins ∨
        nY ≠ (infile.dag.GetBinSet gy).numBins
    · refine ⟨[infile.name], ?_⟩
      simp only [loadRest, if_pos hne, List.map_cons, List.map_nil, List.cons_append,
        List.nil_append]
    · simp only [loadRest, if_neg hne] at h ⊢
      obtain ⟨names, hn⟩ := ih h
      refine ⟨infile.name :: names, ?_⟩
      rw [hn]; rfl

/-- A passing loop has built every later graph, in order, and logged nothing
else. -/
theorem loadRest_pass_log (gx gy : TString) (nX nY : Nat) (fs : List (TString × TFile))
    (h : (loadRest gx gy nX nY fs).1 = true) :
    (loadRest gx gy nX nY fs).2.1 = fs.map (fun f => f.2.dag) ∧
      (loadRest gx gy nX nY fs).2.2 = fs.map (fun f => Event.BuildFromFile f.2.name) := by
  induction fs with
  | nil => simp [loadRest]
  | cons f fs ih =>
    obtain ⟨t, infile⟩ := f
    by_cases hne : nX ≠ (infile.dag.GetBinSet gx).numBins ∨
        nY ≠ (infile.dag.GetBinSet gy).numBins
    · simp [loadRest, if_pos hne] at h
    · simp only [loadRest, if_neg hne] at h ⊢
      obtain ⟨h1, h2⟩ := ih h
      simp [h1, h2]

/-- The run when the binning check fails. -/
theorem comparatorFrom_abort (first : TString × TFile) (others : List (TString × TFile))
    (outfile gx gy : TString) (hl : List TString) (hcat : histList outfile = some hl)
    (hfail : (loadRest gx gy (first.2.dag.GetBinSet gx).numBins
      (first.2.dag.GetBinSet gy).numBins others).1 = false) :
    ∃ names : List TString, comparatorFrom first others outfile gx gy =
      { log := (first :: others).map (fun f => Event.newTFile f.2.name) ++
          [Event.BuildFromFile first.2.name, Event.newPostProcessor first.2.name outfile] ++
          (names.map Event.BuildFromFile ++
            [Event.stderr "ERROR: files have differing bins\n"]),
        store := none } := by
  obtain ⟨names, hn⟩ := loadRest_fail_log gx gy _ _ others hfail
  refine ⟨names, ?_⟩
  simp only [comparatorFrom, hcat, hfail, if_true, hn]

/-- The run when the binning check passes. -/
theorem comparatorFrom_pass (first : TString × TFile) (others : List (TString × TFile))
    (outfile gx gy : TString) (hl : List TString) (hcat : histList outfile = some hl)
    (hpass : (loadRest gx gy (first.2.dag.GetBinSet gx).numBins
      (first.2.dag.GetBinSet gy).numBins others).1 = true) :
    comparatorFrom first others outfile gx gy =
      { log := (first :: others).map (fun f => Event.newTFile f.2.name) ++
          [Event.BuildFromFile first.2.name, Event.newPostProcessor first.2.name outfile] ++
          others.map (fun f => Event.BuildFromFile f.2.name) ++
          (first :: others).map (fun f => Event.legendLabel f.1) ++
          [Event.allocate (others.length + 1) (first.2.dag.GetBinSet gx).numBins
             (first.2.dag.GetBinSet gy).numBins,
           Event.AfterSubloop [gx, gy], Event.Payload, Event.Execute] ++
          (Execute (fillHistosArr (captures first.2 hl gx gy (others.map (fun f => f.2.dag))))
            (drawHistosArr (captures first.2 hl gx gy (others.map (fun f => f.2.dag))))
            first.2.dag gx gy
            (histosArrList (others.length + 1) (first.2.dag.GetBinSet gx).numBins
              (first.2.dag.GetBinSet gy).numBins)).2 ++ [Event.Finish],
        store := some (Execute
            (fillHistosArr (captures first.2 hl gx gy (others.map (fun f => f.2.dag))))
            (drawHistosArr (captures first.2 hl gx gy (others.map (fun f => f.2.dag))))
            first.2.dag gx gy
            (histosArrList (others.length + 1) (first.2.dag.GetBinSet gx).numBins
              (first.2.dag.GetBinSet gy).numBins)).1 } := by
  obtain ⟨h1, h2⟩ := loadRest_pass_log gx gy _ _ others hpass
  simp only [comparatorFrom, hcat, hpass, h1, h2, captures, List.length_cons]
  simp

/-! ## Lemmas on the traversal -/

/-- C2: success case of the payload operator. For a leaf whose grid bin numbers
are inside the allocated grid, on an array with one plane for the first file
and one for each graph of `Dext`, when the lookup of every graph of `Dext`
succeeds, after the call the array holds `H` at `[0][bx][by]` and, for every
`i` from 1 to the number of additional graphs, holds at `[i][bx][by]` exactly
the payload that `Dext[i-1]` returns for the same node path; nothing is
reported as an error. -/
theorem fillHistosArr_success (c : Captures) (s : Store) (nx ny : Nat)
    (hs : Shaped s (c.Dext.length + 1) nx ny) (NP : NodePath) (H : HistosPtr)
    (hx0 : 0 ≤ NP.GetBinNum c.gx) (hx1 : NP.GetBinNum c.gx < (nx : Int))
    (hy0 : 0 ≤ NP.GetBinNum c.gy) (hy1 : NP.GetBinNum c.gy < (ny : Int))
    (hok : ∀ De ∈ c.Dext, ∃ h, De.GetPayloadData NP true = .ok h) :
    cell (fillHistosArr c s NP H).1 0 (NP.GetBinNum c.gx).toNat (NP.GetBinNum c.gy).toNat
        = some H ∧
      (∀ i, 1 ≤ i → i ≤ c.Dext.length →
        ∃ De h, c.Dext[i - 1]? = some De ∧ De.GetPayloadData NP true = .ok h ∧
          cell (fillHistosArr c s NP H).1 i (NP.GetBinNum c.gx).toNat
            (NP.GetBinNum c.gy).toNat = some h) ∧
      (fillHistosArr c s NP H).2 = [.printBin (NP.GetBinNum c.gx) (NP.GetBinNum c.gy)] := by
  obtain ⟨s0, hs0, hsh0, hc0⟩ :=
    assignAt_in_range s _ nx ny hs 0 _ _ H (by omega) hx0 hx1 hy0 hy1
  obtain ⟨s1, hs1, _, hw1, hf1⟩ :=
    fillLoop_all_ok NP _ _ _ nx ny hx0 hx1 hy0 hy1 c.Dext 0 s0 hsh0 (by omega) hok
  simp only [Nat.cast_zero] at hs0 hs1
  have hfill : fillHistosArr c s NP H =
      (s1, [.printBin (NP.GetBinNum c.gx) (NP.GetBinNum c.gy)]) := by
    simp [fillHistosArr, hs0, hs1]
  rw [hfill]
  refine ⟨?_, ?_, rfl⟩
  · show cell s1 0 _ _ = some H
    rw [hf1 0 _ _ (Or.inr (Or.inr (Or.inl (le_refl _)))), hc0]; simp
  · intro i hi1 hi2
    have hlt : i - 1 < c.Dext.length := by omega
    obtain ⟨h, hh⟩ := hok _ (List.getElem_mem hlt)
    refine ⟨c.Dext[i - 1], h, List.getElem?_eq_getElem hlt, hh, ?_⟩
    have := hw1 (i - 1) _ h (List.getElem?_eq_getElem hlt) hh
    have e : 0 + 1 + (i - 1) = i := by omega
    rw [e] at this
    exact this

/-- C3: per-cell lookup failure. For a leaf inside the grid and a graph
`Dext[i]` (file index `i+1`) such that the lookups of the graphs before it
succeed and its own lookup fails, after the call the cell `[0][bx][by]` holds
the payload of the first file, the cell `[i+1][bx][by]` is as it was before the
call (so still the null pointer when it was), the failure is reported and the
operator returns a result, so that the visits of the following leaves are
carried out from the array the call left. -/
theorem fillHistosArr_lookup_failure (c : Captures) (s : Store) (nx ny : Nat)
    (hs : Shaped s (c.Dext.length + 1) nx ny) (NP : NodePath) (H : HistosPtr)
    (hx0 : 0 ≤ NP.GetBinNum c.gx) (hx1 : NP.GetBinNum c.gx < (nx : Int))
    (hy0 : 0 ≤ NP.GetBinNum c.gy) (hy1 : NP.GetBinNum c.gy < (ny : Int))
    (i : Nat) (De : HistosDAG) (hi : c.Dext[i]? = some De)
    (hprev : ∀ j Dj, j < i → c.Dext[j]? = some Dj → ∃ h, Dj.GetPayloadData NP true = .ok h)
    (hfail : De.GetPayloadData NP true = .error .out_of_range)
    (ls : List (NodePath × HistosPtr)) :
    cell (fillHistosArr c s NP H).1 0 (NP.GetBinNum c.gx).toNat (NP.GetBinNum c.gy).toNat
        = some H ∧
      cell (fillHistosArr c s NP H).1 (i + 1) (NP.GetBinNum c.gx).toNat
          (NP.GetBinNum c.gy).toNat
        = cell s (i + 1) (NP.GetBinNum c.gx).toNat (NP.GetBinNum c.gy).toNat ∧
      (cell s (i + 1) (NP.GetBinNum c.gx).toNat (NP.GetBinNum c.gy).toNat = some none →
        cell (fillHistosArr c s NP H).1 (i + 1) (NP.GetBinNum c.gx).toNat
          (NP.GetBinNum c.gy).toNat = some none) ∧
      (∃ pc, (fillHistosArr c s NP H).2 =
        [.printBin (NP.GetBinNum c.gx) (NP.GetBinNum c.gy),
         .invalidBin pc (NP.GetBinNum c.gx) (NP.GetBinNum c.gy)]) ∧
      visitLeaves (fillHistosArr c) ((NP, H) :: ls) s =
        ((visitLeaves (fillHistosArr c) ls (fillHistosArr c s NP H).1).1,
          Event.leafVisit NP H :: ((fillHistosArr c s NP H).2 ++
            (visitLeaves (fillHistosArr c) ls (fillHistosArr c s NP H).1).2)) := by
  obtain ⟨hsplit, hlen⟩ := split_at_index c.Dext i De hi
  have hilt : i < c.Dext.length := (List.getElem?_eq_some.1 hi).1
  have hpre : ∀ D ∈ c.Dext.take i, ∃ h, D.GetPayloadData NP true = .ok h := by
    intro D hD
    obtain ⟨j, hj⟩ := List.mem_iff_getElem?.1 hD
    rw [List.getElem?_take] at hj
    by_cases hji : j < i
    · rw [if_pos hji] at hj
      exact hprev j D hji hj
    · rw [if_neg hji] at hj; cases hj
  obtain ⟨s1, pc, hfill, _, h0, _, hframe⟩ :=
    fillHistosArr_stops c s _ nx ny hs NP H hx0 hx1 hy0 hy1 (c.Dext.take i)
      (c.Dext.drop (i + 1)) De hsplit hpre (by rw [hlen]; omega) (Or.inl hfail)
  have hcell : cell s1 (i + 1) (NP.GetBinNum c.gx).toNat (NP.GetBinNum c.gy).toNat
      = cell s (i + 1) (NP.GetBinNum c.gx).toNat (NP.GetBinNum c.gy).toNat :=
    hframe _ _ _ (Or.inr (Or.inr (by rw [hlen]; omega)))
  rw [hfill]
  refine ⟨h0, hcell, fun h => ?_, ⟨pc, rfl⟩, ?_⟩
  · show cell s1 _ _ _ = some none
    rw [hcell]; exact h
  · simp only [visitLeaves, hfill]

/-- C5: out-of-range write. For a leaf whose grid bin number `bx` is outside
`[0,numXbins)` or whose `by` is outside `[0,numYbins)`, negative values
included, the first checked write throws, the exception is caught and reported
inside the operator, the operator returns, and the array is exactly the array
before the call: no cell of any file index is written. -/
theorem fillHistosArr_out_of_range (c : Captures) (s : Store) (nf nx ny : Nat)
    (hs : Shaped s nf nx ny) (NP : NodePath) (H : HistosPtr)
    (hout : NP.GetBinNum c.gx < 0 ∨ (nx : Int) ≤ NP.GetBinNum c.gx ∨
      NP.GetBinNum c.gy < 0 ∨ (ny : Int) ≤ NP.GetBinNum c.gy) :
    fillHistosArr c s NP H =
      (s, [.printBin (NP.GetBinNum c.gx) (NP.GetBinNum c.gy),
           .invalidBin 0 (NP.GetBinNum c.gx) (NP.GetBinNum c.gy)]) := by
  have := assignAt_out_of_range s nf nx ny hs 0 (NP.GetBinNum c.gx) (NP.GetBinNum c.gy) H
    (Or.inr (Or.inr hout))
  simp [fillHistosArr, this]

/-- C10: a failure cuts the loop over `Dext` short. For a leaf inside the grid
and a graph `Dext[i]` (file index `i+1`) whose write fails with an out-of-range
error, from its lookup or because the array has no plane for it, after the
writes of the files before it succeeded: no cell of any file index above `i+1`
is written, whatever the lookups of those graphs would return; the cells of
the file indices `0..i` at the grid bin hold the payloads written before the
failure; and no cell at any other coordinate is modified. -/
theorem fillHistosArr_failure_cuts_loop (c : Captures) (s : Store) (nf nx ny : Nat)
    (hs : Shaped s nf nx ny) (NP : NodePath) (H : HistosPtr)
    (hx0 : 0 ≤ NP.GetBinNum c.gx) (hx1 : NP.GetBinNum c.gx < (nx : Int))
    (hy0 : 0 ≤ NP.GetBinNum c.gy) (hy1 : NP.GetBinNum c.gy < (ny : Int))
    (i : Nat) (De : HistosDAG) (hi : c.Dext[i]? = some De) (hnf : i + 1 ≤ nf)
    (hprev : ∀ j Dj, j < i → c.Dext[j]? = some Dj → ∃ h, Dj.GetPayloadData NP true = .ok h)
    (hfail : De.GetPayloadData NP true = .error .out_of_range ∨ nf ≤ i + 1) :
    (∀ j x y, i + 1 < j →
        cell (fillHistosArr c s NP H).1 j x y = cell s j x y) ∧
      cell (fillHistosArr c s NP H).1 0 (NP.GetBinNum c.gx).toNat (NP.GetBinNum c.gy).toNat
        = some H ∧
      (∀ j Dj h, j < i → c.Dext[j]? = some Dj → Dj.GetPayloadData NP true = .ok h →
        cell (fillHistosArr c s NP H).1 (j + 1) (NP.GetBinNum c.gx).toNat
          (NP.GetBinNum c.gy).toNat = some h) ∧
      (∀ k x y, (x ≠ (NP.GetBinNum c.gx).toNat ∨ y ≠ (NP.GetBinNum c.gy).toNat) →
        cell (fillHistosArr c s NP H).1 k x y = cell s k x y) := by
  obtain ⟨hsplit, hlen⟩ := split_at_index c.Dext i De hi
  have hpre : ∀ D ∈ c.Dext.take i, ∃ h, D.GetPayloadData NP true = .ok h := by
    intro D hD
    obtain ⟨j, hj⟩ := List.mem_iff_getElem?.1 hD
    rw [List.getElem?_take] at hj
    by_cases hji : j < i
    · rw [if_pos hji] at hj
      exact hprev j D hji hj
    · rw [if_neg hji] at hj; cases hj
  obtain ⟨s1, pc, hfill, _, h0, hw, hframe⟩ :=
    fillHistosArr_stops c s nf nx ny hs NP H hx0 hx1 hy0 hy1 (c.Dext.take i)
      (c.Dext.drop (i + 1)) De hsplit hpre (by rw [hlen]; exact hnf)
      (by rw [hlen]; exact hfail)
  rw [hfill]
  refine ⟨?_, h0, ?_, ?_⟩
  · intro j x y hj
    exact hframe j x y (Or.inr (Or.inr (by rw [hlen]; omega)))
  · intro j Dj h hji hj hl
    apply hw j Dj h _ hl
    rw [List.getElem?_take, if_pos hji]; exact hj
  · intro k x y hxy
    apply hframe
    rcases hxy with h | h
    · exact Or.inl h
    · exact Or.inr (Or.inl h)

/-- Witness of C2 on the sample grid: two additional graphs whose lookups at
`(1,0)` succeed. -/
theorem fillHistosArr_success_witness :
    cell (fillHistosArr (sampleCaptures [fileSame.dag, fileMissing.dag])
        (histosArrList 3 2 2) (sampleNP 1 0) (some 10)).1 0 1 0 = some (some 10) ∧
      (∀ i, 1 ≤ i → i ≤ 2 →
        ∃ De h, [fileSame.dag, fileMissing.dag][i - 1]? = some De ∧
          De.GetPayloadData (sampleNP 1 0) true = .ok h ∧
          cell (fillHistosArr (sampleCaptures [fileSame.dag, fileMissing.dag])
            (histosArrList 3 2 2) (sampleNP 1 0) (some 10)).1 i 1 0 = some h) ∧
      (fillHistosArr (sampleCaptures [fileSame.dag, fileMissing.dag])
        (histosArrList 3 2 2) (sampleNP 1 0) (some 10)).2 = [.printBin 1 0] :=
  fillHistosArr_success (sampleCaptures [fileSame.dag, fileMissing.dag])
    (histosArrList 3 2 2) 2 2 (shaped_histosArrList 3 2 2) (sampleNP 1 0) (some 10)
    (by decide) (by decide) (by decide) (by decide)
    (by
      intro De hDe
      simp only [sampleCaptures, captures, List.mem_cons, List.mem_singleton,
        List.not_mem_nil, or_false] at hDe
      rcases hDe with rfl | rfl <;> exact ⟨_, rfl⟩)

/-- Witness of C3 on the sample grid: the second file has no payload at
`(1,1)`, on the freshly constructed array. -/
theorem fillHistosArr_lookup_failure_witness :
    cell (fillHistosArr (sampleCaptures [fileMissing.dag]) (histosArrList 2 2 2)
        (sampleNP 1 1) (some 11)).1 0 1 1 = some (some 11) ∧
      cell (fillHistosArr (sampleCaptures [fileMissing.dag]) (histosArrList 2 2 2)
        (sampleNP 1 1) (some 11)).1 1 1 1 = cell (histosArrList 2 2 2) 1 1 1 ∧
      (cell (histosArrList 2 2 2) 1 1 1 = some none →
        cell (fillHistosArr (sampleCaptures [fileMissing.dag]) (histosArrList 2 2 2)
          (sampleNP 1 1) (some 11)).1 1 1 1 = some none) ∧
      (∃ pc, (fillHistosArr (sampleCaptures [fileMissing.dag]) (histosArrList 2 2 2)
        (sampleNP 1 1) (some 11)).2 = [.printBin 1 1, .invalidBin pc 1 1]) ∧
      visitLeaves (fillHistosArr (sampleCaptures [fileMissing.dag]))
          ((sampleNP 1 1, some 11) :: [sampleLeaf 0 0 0]) (histosArrList 2 2 2) =
        ((visitLeaves (fillHistosArr (sampleCaptures [fileMissing.dag])) [sampleLeaf 0 0 0]
            (fillHistosArr (sampleCaptures [fileMissing.dag]) (histosArrList 2 2 2)
              (sampleNP 1 1) (some 11)).1).1,
          Event.leafVisit (sampleNP 1 1) (some 11) ::
            ((fillHistosArr (sampleCaptures [fileMissing.dag]) (histosArrList 2 2 2)
              (sampleNP 1 1) (some 11)).2 ++
             (visitLeaves (fillHistosArr (sampleCaptures [fileMissing.dag]))
               [sampleLeaf 0 0 0]
               (fillHistosArr (sampleCaptures [fileMissing.dag]) (histosArrList 2 2 2)
                 (sampleNP 1 1) (some 11)).1).2)) :=
  fillHistosArr_lookup_failure (sampleCaptures [fileMissing.dag]) (histosArrList 2 2 2) 2 2
    (shaped_histosArrList 2 2 2) (sampleNP 1 1) (some 11)
    (by decide) (by decide) (by decide) (by decide)
    0 fileMissing.dag rfl (fun j _ hj => absurd hj (Nat.not_lt_zero j)) rfl
    [sampleLeaf 0 0 0]

/-- Witness of C5 on the sample grid: a leaf with the negative bin number
`bx = -1`. -/
theorem fillHistosArr_out_of_range_witness :
    fillHistosArr (sampleCaptures [fileSame.dag]) (histosArrList 2 2 2)
        (sampleNP (-1) 0) (some 7) =
      (histosArrList 2 2 2, [.printBin (-1) 0, .invalidBin 0 (-1) 0]) :=
  fillHistosArr_out_of_range (sampleCaptures [fileSame.dag]) (histosArrList 2 2 2) 2 2 2
    (shaped_histosArrList 2 2 2) (sampleNP (-1) 0) (some 7) (Or.inl (by decide))

/-- Witness of C10 on the sample grid: the third file (file index 2) has no
payload at `(1,1)`; the payload of the second file stays in place and the
fourth file, whose lookup there would succeed, is not written. -/
theorem fillHistosArr_failure_cuts_loop_witness :
    (∀ j x y, 1 + 1 < j →
        cell (fillHistosArr (sampleCaptures [fileSame.dag, fileMissing.dag, fileSame.dag])
          (histosArrList 4 2 2) (sampleNP 1 1) (some 11)).1 j x y =
        cell (histosArrList 4 2 2) j x y) ∧
      cell (fillHistosArr (sampleCaptures [fileSame.dag, fileMissing.dag, fileSame.dag])
        (histosArrList 4 2 2) (sampleNP 1 1) (some 11)).1 0 1 1 = some (some 11) ∧
      (∀ j Dj h, j < 1 → [fileSame.dag, fileMissing.dag, fileSame.dag][j]? = some Dj →
        Dj.GetPayloadData (sampleNP 1 1) true = .ok h →
        cell (fillHistosArr (sampleCaptures [fileSame.dag, fileMissing.dag, fileSame.dag])
          (histosArrList 4 2 2) (sampleNP 1 1) (some 11)).1 (j + 1) 1 1 = some h) ∧
      (∀ k x y, (x ≠ 1 ∨ y ≠ 1) →
        cell (fillHistosArr (sampleCaptures [fileSame.dag, fileMissing.dag, fileSame.dag])
          (histosArrList 4 2 2) (sampleNP 1 1) (some 11)).1 k x y =
        cell (histosArrList 4 2 2) k x y) :=
  fillHistosArr_failure_cuts_loop
    (sampleCaptures [fileSame.dag, fileMissing.dag, fileSame.dag])
    (histosArrList 4 2 2) 4 2 2 (shaped_histosArrList 4 2 2) (sampleNP 1 1) (some 11)
    (by decide) (by decide) (by decide) (by decide)
    1 fileMissing.dag rfl (by decide)
    (by
      intro j Dj hj hget
      have hj0 : j = 0 := by omega
      subst hj0
      simp only [sampleCaptures, captures, List.getElem?_cons_zero, Option.some.injEq] at hget
      subst hget
      exact ⟨_, rfl⟩)
    (Or.inl rfl)


/-! ## Properties of the script body -/

/-- C8: selection of the histogram list. The list depends on the output name
only: for a name containing "coverage" it is the 16-name coverage list, also
when the name contains "resolution" as well; for a name containing "resolution"
and not "coverage" it is the 11-name resolution list; otherwise there is no
list. The list is always one of the two, never a mixture. -/
theorem histList_selection (outfile : TString) :
    (Contains outfile "coverage" = true →
      histList outfile = some ["x", "y", "W", "pLab", "pTlab", "etaLab", "phiLab", "z",
        "pT", "qT", "qTq", "mX", "phiH", "phiS", "phiSivers", "phiCollins"]) ∧
    (Contains outfile "resolution" = true → Contains outfile "coverage" = false →
      histList outfile = some ["x_Res", "y_Res", "pT_Res", "Q2_Res", "Nu_Res", "W_Res",
        "phiH_Res", "phiS_Res", "z_Res", "mX_Res", "xF_Res"]) ∧
    (histList outfile = some ["x", "y", "W", "pLab", "pTlab", "etaLab", "phiLab", "z",
        "pT", "qT", "qTq", "mX", "phiH", "phiS", "phiSivers", "phiCollins"] ∨
      histList outfile = some ["x_Res", "y_Res", "pT_Res", "Q2_Res", "Nu_Res", "W_Res",
        "phiH_Res", "phiS_Res", "z_Res", "mX_Res", "xF_Res"] ∨
      histList outfile = none) := by
  unfold histList
  cases hc : Contains outfile "coverage" <;> cases hr : Contains outfile "resolution" <;>
    simp

/-- Witness of C8: a name with both tokens selects the coverage list, a name
with "resolution" alone the resolution list. -/
theorem histList_selection_witness :
    histList "out/coverage.resolution.root" = some ["x", "y", "W", "pLab", "pTlab",
        "etaLab", "phiLab", "z", "pT", "qT", "qTq", "mX", "phiH", "phiS", "phiSivers",
        "phiCollins"] ∧
      histList "out/resolution.comparison.root" = some ["x_Res", "y_Res", "pT_Res",
        "Q2_Res", "Nu_Res", "W_Res", "phiH_Res", "phiS_Res", "z_Res", "mX_Res", "xF_Res"] :=
  ⟨(histList_selection "out/coverage.resolution.root").1 (by decide),
   (histList_selection "out/resolution.comparison.root").2.1 (by decide) (by decide)⟩

/-- C4: unrecognized category. For an output name that contains neither
"coverage" nor "resolution", the run consists of the one error report and
nothing else: no file is opened, no graph is built, no bin count is compared,
the array is not constructed, no operator is registered and nothing is
executed. -/
theorem unrecognized_category (first : TString × TFile) (others : List (TString × TFile))
    (outfile gx gy : TString)
    (hc : Contains outfile "coverage" = false) (hr : Contains outfile "resolution" = false) :
    (comparatorFrom first others outfile gx gy).log =
        [Event.stderr "ERROR: histList not defined for specified infile name\n"] ∧
      (comparatorFrom first others outfile gx gy).store = none := by
  have h : histList outfile = none := by simp [histList, hc, hr]
  simp [comparatorFrom, h]

/-- Witness of C4: the four-file script on an output name without a category
token. -/
theorem unrecognized_category_witness :
    (comparator "A" fileRef "B" fileSame "C" fileSame "D" fileSame
        "out/other.comparison.root" "x" "q2").log =
        [Event.stderr "ERROR: histList not defined for specified infile name\n"] ∧
      (comparator "A" fileRef "B" fileSame "C" fileSame "D" fileSame
        "out/other.comparison.root" "x" "q2").store = none :=
  unrecognized_category ("A", fileRef) [("B", fileSame), ("C", fileSame), ("D", fileSame)]
    "out/other.comparison.root" "x" "q2" (by decide) (by decide)

/-- C1: the binning check. With a recognized output name, for every list of
loaded files (reference first), the run ends with the report that the files
have differing bins if and only if some file after the first has a bin count
for `gx` or for `gy` that differs from the first file's count. Only the counts
enter the condition. When it holds, the array is not constructed and the run
contains no event of the part after the check (no registration of an operator,
no execution); when every count equals the reference's, whatever the minima,
maxima and boundaries are, the run constructs the array and executes. -/
theorem compatibility_check (first : TString × TFile) (others : List (TString × TFile))
    (outfile gx gy : TString) (hl : List TString) (hcat : histList outfile = some hl) :
    ((comparatorFrom first others outfile gx gy).log.getLast? =
          some (Event.stderr "ERROR: files have differing bins\n") ↔
        ∃ f ∈ others,
          (f.2.dag.GetBinSet gx).numBins ≠ (first.2.dag.GetBinSet gx).numBins ∨
          (f.2.dag.GetBinSet gy).numBins ≠ (first.2.dag.GetBinSet gy).numBins) ∧
      ((∃ f ∈ others,
          (f.2.dag.GetBinSet gx).numBins ≠ (first.2.dag.GetBinSet gx).numBins ∨
          (f.2.dag.GetBinSet gy).numBins ≠ (first.2.dag.GetBinSet gy).numBins) →
        (comparatorFrom first others outfile gx gy).store = none ∧
        ∀ e ∈ (comparatorFrom first others outfile gx gy).log, e.afterCheck = false) ∧
      ((∀ f ∈ others,
          (f.2.dag.GetBinSet gx).numBins = (first.2.dag.GetBinSet gx).numBins ∧
          (f.2.dag.GetBinSet gy).numBins = (first.2.dag.GetBinSet gy).numBins) →
        (comparatorFrom first others outfile gx gy).store ≠ none ∧
        Event.Execute ∈ (comparatorFrom first others outfile gx gy).log) := by
  have hiff := loadRest_pass_iff gx gy (first.2.dag.GetBinSet gx).numBins
    (first.2.dag.GetBinSet gy).numBins others
  cases hp : (loadRest gx gy (first.2.dag.GetBinSet gx).numBins
      (first.2.dag.GetBinSet gy).numBins others).1 with
  | false =>
    obtain ⟨names, hrun⟩ := comparatorFrom_abort first others outfile gx gy hl hcat hp
    have hex : ∃ f ∈ others,
        (f.2.dag.GetBinSet gx).numBins ≠ (first.2.dag.GetBinSet gx).numBins ∨
        (f.2.dag.GetBinSet gy).numBins ≠ (first.2.dag.GetBinSet gy).numBins := by
      by_contra hno
      have hall : ∀ f ∈ others, (first.2.dag.GetBinSet gx).numBins = (f.2.dag.GetBinSet gx).numBins ∧
          (first.2.dag.GetBinSet gy).numBins = (f.2.dag.GetBinSet gy).numBins := by
        intro f hf
        constructor
        · by_contra h; exact hno ⟨f, hf, Or.inl (fun e => h e.symm)⟩
        · by_contra h; exact hno ⟨f, hf, Or.inr (fun e => h e.symm)⟩
      rw [hiff.2 hall] at hp
      cases hp
    rw [hrun]
    refine ⟨⟨fun _ => hex, fun _ => ?_⟩, fun _ => ⟨rfl, ?_⟩, fun hall => ?_⟩
    · rw [← List.append_assoc]
      exact List.getLast?_concat _
    · intro e he
      simp only [List.mem_append, List.mem_map, List.mem_cons, List.mem_singleton,
        List.not_mem_nil, or_false] at he
      rcases he with (⟨f, _, rfl⟩ | rfl | rfl) | ⟨n, _, rfl⟩ | rfl <;> rfl
    · exfalso
      obtain ⟨f, hf, hne⟩ := hex
      rcases hne with h | h
      · exact h (hall f hf).1
      · exact h (hall f hf).2
  | true =>
    have hrun := comparatorFrom_pass first others outfile gx gy hl hcat hp
    have hall := hiff.1 hp
    have hno : ¬ ∃ f ∈ others,
        (f.2.dag.GetBinSet gx).numBins ≠ (first.2.dag.GetBinSet gx).numBins ∨
        (f.2.dag.GetBinSet gy).numBins ≠ (first.2.dag.GetBinSet gy).numBins := by
      rintro ⟨f, hf, h | h⟩
      · exact h (hall f hf).1.symm
      · exact h (hall f hf).2.symm
    rw [hrun]
    refine ⟨⟨fun h => ?_, fun h => absurd h hno⟩, fun h => absurd h hno, fun _ => ⟨?_, ?_⟩⟩
    · rw [List.getLast?_concat] at h
      cases h
    · simp
    · simp


/-- Witness of C1: the four-file script where the third file has 3 bins in
`q2` aborts before the array is constructed, and the four-file script on files
with equal counts and other minima, maxima and boundaries executes. -/
theorem compatibility_check_witness :
    histList "out/resolution.comparison.root" = some ["x_Res", "y_Res", "pT_Res",
        "Q2_Res", "Nu_Res", "W_Res", "phiH_Res", "phiS_Res", "z_Res", "mX_Res", "xF_Res"] ∧
      (comparator "A" fileRef "B" fileSame "C" fileY3 "D" fileSame
        "out/resolution.comparison.root" "x" "q2").log.getLast? =
        some (Event.stderr "ERROR: files have differing bins\n") ∧
      (comparator "A" fileRef "B" fileSame "C" fileY3 "D" fileSame
        "out/resolution.comparison.root" "x" "q2").store = none ∧
      (comparator "A" fileRef "B" fileSame "C" fileSame "D" fileSame
        "out/resolution.comparison.root" "x" "q2").store ≠ none :=
  ⟨by decide,
   (compatibility_check ("A", fileRef) [("B", fileSame), ("C", fileY3), ("D", fileSame)]
      "out/resolution.comparison.root" "x" "q2" _ rfl).1.2
      ⟨("C", fileY3), by simp, Or.inr (by decide)⟩,
   ((compatibility_check ("A", fileRef) [("B", fileSame), ("C", fileY3), ("D", fileSame)]
      "out/resolution.comparison.root" "x" "q2" _ rfl).2.1
      ⟨("C", fileY3), by simp, Or.inr (by decide)⟩).1,
   ((compatibility_check ("A", fileRef) [("B", fileSame), ("C", fileSame), ("D", fileSame)]
      "out/resolution.comparison.root" "x" "q2" _ rfl).2.2
      (by
        intro f hf
        simp only [List.mem_cons, List.mem_singleton, List.not_mem_nil, or_false] at hf
        rcases hf with rfl | rfl | rfl <;> exact ⟨by decide, by decide⟩)).1⟩

/-- C9, as the specification states it, fails: two runs of the four-file
script that both fail the binning check, the first because the second file
differs in `x`, the other because the third file differs in `q2`, produce the
same diagnostics. -/
theorem diagnostic_does_not_name_divergence :
    firstDivergent "x" "q2" fileRef
        [("B", fileX3), ("C", fileSame), ("D", fileSame)] 1 = some (1, "x") ∧
      firstDivergent "x" "q2" fileRef
        [("B", fileSame), ("C", fileY3), ("D", fileSame)] 1 = some (2, "q2") ∧
      diagnostics (comparator "A" fileRef "B" fileX3 "C" fileSame "D" fileSame
        "out/resolution.comparison.root" "x" "q2") =
        [Event.stderr "ERROR: files have differing bins\n"] ∧
      diagnostics (comparator "A" fileRef "B" fileX3 "C" fileSame "D" fileSame
        "out/resolution.comparison.root" "x" "q2") =
      diagnostics (comparator "A" fileRef "B" fileSame "C" fileY3 "D" fileSame
        "out/resolution.comparison.root" "x" "q2") :=
  ⟨by decide, by decide, by rfl, by rfl⟩

/-- C9, amended: whenever the binning check fails, the run reports exactly one
error, the fixed message that the files have differing bins; the message is
the same for every divergent file and every divergent grid variable. -/
theorem incompatibility_diagnostic (first : TString × TFile)
    (others : List (TString × TFile)) (outfile gx gy : TString) (hl : List TString)
    (hcat : histList outfile = some hl)
    (hdiv : ∃ f ∈ others,
      (f.2.dag.GetBinSet gx).numBins ≠ (first.2.dag.GetBinSet gx).numBins ∨
      (f.2.dag.GetBinSet gy).numBins ≠ (first.2.dag.GetBinSet gy).numBins) :
    diagnostics (comparatorFrom first others outfile gx gy) =
      [Event.stderr "ERROR: files have differing bins\n"] := by
  have hp : (loadRest gx gy (first.2.dag.GetBinSet gx).numBins
      (first.2.dag.GetBinSet gy).numBins others).1 = false := by
    cases hq : (loadRest gx gy (first.2.dag.GetBinSet gx).numBins
      (first.2.dag.GetBinSet gy).numBins others).1 with
    | false => rfl
    | true =>
      exfalso
      have hall := (loadRest_pass_iff gx gy _ _ others).1 hq
      obtain ⟨f, hf, h | h⟩ := hdiv
      · exact h (hall f hf).1.symm
      · exact h (hall f hf).2.symm
  obtain ⟨names, hrun⟩ := comparatorFrom_abort first others outfile gx gy hl hcat hp
  have h1 : ∀ l : List (TString × TFile),
      List.filter Event.isError (l.map (fun f => Event.newTFile f.2.name)) = [] := by
    intro l; induction l with
    | nil => rfl
    | cons a l ih => simp [List.filter, Event.isError, ih]
  have h2 : ∀ l : List TString, List.filter Event.isError (l.map Event.BuildFromFile) = [] := by
    intro l; induction l with
    | nil => rfl
    | cons a l ih => simp [List.filter, Event.isError, ih]
  rw [hrun]
  simp only [diagnostics, List.filter_append, h1, h2]
  rfl

/-- Witness of C9 (amended): the four-file script where the second file has 3
bins in `x`. -/
theorem incompatibility_diagnostic_witness :
    diagnostics (comparator "A" fileRef "B" fileX3 "C" fileSame "D" fileSame
        "out/coverage.comparison.root" "x" "q2") =
      [Event.stderr "ERROR: files have differing bins\n"] :=
  incompatibility_diagnostic ("A", fileRef) [("B", fileX3), ("C", fileSame), ("D", fileSame)]
    "out/coverage.comparison.root" "x" "q2" _ rfl
    ⟨("B", fileX3), by simp, Or.inl (by decide)⟩

/-! ## Properties of the after-subloop operator `drawHistosArr` -/

/-- C7: renderer calls of the after-subloop operator. In a run with a
recognized output name, every invocation of `drawHistosArr` consists of calls
of `DrawInBins` only, one for each name of the selected histogram list, in list
order, and the names of the list are pairwise different, so no name is repeated
or skipped; every call receives the same canvas name `gx_gy_cov_` followed by
the bin-list name of the node path, the same array, the titles and log flags
of the two grid variables, and the bin counts, minima and maxima of the first
file's bin sets. -/
theorem drawHistosArr_renderer_calls (first : TFile) (outfile gx gy : TString)
    (hl : List TString) (hcat : histList outfile = some hl) (Dext : List HistosDAG)
    (store : Store) (NP : NodePath) :
    ∃ calls : List DrawCall,
      drawHistosArr (captures first hl gx gy Dext) store NP = calls.map Event.DrawInBins ∧
      calls.map (fun d => d.histName) = hl ∧ hl.Nodup ∧
      ∀ d ∈ calls,
        d.canvName = gx ++ "_" ++ gy ++ "_cov_" ++ NP.BinListName ∧
        d.histArrList = store ∧
        d.gxT = (gridSettings gx).1 ∧ d.logx = (gridSettings gx).2 ∧
        d.numXbins = (first.dag.GetBinSet gx).numBins ∧
        d.xMin = (first.dag.GetBinSet gx).min ∧ d.xMax = (first.dag.GetBinSet gx).max ∧
        d.gyT = (gridSettings gy).1 ∧ d.logy = (gridSettings gy).2 ∧
        d.numYbins = (first.dag.GetBinSet gy).numBins ∧
        d.yMin = (first.dag.GetBinSet gy).min ∧ d.yMax = (first.dag.GetBinSet gy).max ∧
        d.opt1 = true ∧ d.opt2 = true ∧ d.opt3 = true := by
  refine ⟨drawCalls (captures first hl gx gy Dext) store NP, rfl, ?_, ?_, ?_⟩
  · simp [drawCalls, captures, List.map_map, Function.comp_def]
  · unfold histList at hcat
    split at hcat
    · cases hcat; decide
    · split at hcat
      · cases hcat; decide
      · cases hcat
  · intro d hd
    simp only [drawCalls, captures, List.mem_map] at hd
    obtain ⟨n, _, rfl⟩ := hd
    simp

/-- Witness of C7: an invocation in a run with the resolution list on the
sample reference file. -/
theorem drawHistosArr_renderer_calls_witness :
    ∃ calls : List DrawCall,
      drawHistosArr (captures fileRef ["x_Res", "y_Res", "pT_Res", "Q2_Res", "Nu_Res",
          "W_Res", "phiH_Res", "phiS_Res", "z_Res", "mX_Res", "xF_Res"] "x" "q2"
          [fileSame.dag]) (histosArrList 2 2 2) (sampleNP 0 1) =
        calls.map Event.DrawInBins ∧
      calls.map (fun d => d.histName) = ["x_Res", "y_Res", "pT_Res", "Q2_Res", "Nu_Res",
          "W_Res", "phiH_Res", "phiS_Res", "z_Res", "mX_Res", "xF_Res"] ∧
      ["x_Res", "y_Res", "pT_Res", "Q2_Res", "Nu_Res",
          "W_Res", "phiH_Res", "phiS_Res", "z_Res", "mX_Res", "xF_Res"].Nodup ∧
      ∀ d ∈ calls,
        d.canvName = "x" ++ "_" ++ "q2" ++ "_cov_" ++ (sampleNP 0 1).BinListName ∧
        d.histArrList = histosArrList 2 2 2 ∧
        d.gxT = (gridSettings "x").1 ∧ d.logx = (gridSettings "x").2 ∧
        d.numXbins = (fileRef.dag.GetBinSet "x").numBins ∧
        d.xMin = (fileRef.dag.GetBinSet "x").min ∧ d.xMax = (fileRef.dag.GetBinSet "x").max ∧
        d.gyT = (gridSettings "q2").1 ∧ d.logy = (gridSettings "q2").2 ∧
        d.numYbins = (fileRef.dag.GetBinSet "q2").numBins ∧
        d.yMin = (fileRef.dag.GetBinSet "q2").min ∧
        d.yMax = (fileRef.dag.GetBinSet "q2").max ∧
        d.opt1 = true ∧ d.opt2 = true ∧ d.opt3 = true :=
  drawHistosArr_renderer_calls fileRef "out/resolution.comparison.root" "x" "q2" _
    rfl [fileSame.dag] (histosArrList 2 2 2) (sampleNP 0 1)


/-! ## Properties of the staged traversal -/

end Comparator
